import Mathlib

/-!
Verification of the flicker / chipTAN(optical) core of
`gnucash/import-export/aqb/gnc-flicker-gui.c`: the challenge-to-bitstream
encoder (`get_num`, `flicker_data`) and the flicker animation state machine
(`time_handler`, `do_flicker_drawing`, `on_spin_delay_value_changed`).

Modelling conventions:
* C characters are modelled as their byte values (`Nat`).
* The global array `_Bool bitarray[255][5]` is modelled as a total map
  `Nat → List Bool` from row index to the 5-bit row.
* `flicker_data` mallocs `sizeof(pre) + strlen(challenge) + 1` bytes, copies
  the 4-byte synchronization identifier and the challenge, and never writes
  the reserved terminator byte.  That last byte of the allocation is
  therefore uninitialized; it is modelled as an explicit parameter `tbyte`.
* The GTK timeout source stored in `flickerdraw.interval` is modelled by the
  period it was registered with; `gtk_widget_queue_draw` followed by the
  draw signal is modelled as the tick synchronously producing the frame.
-/

set_option autoImplicit false

/-- Pointwise update of the modelled `bitarray`: the row at index `i` is
replaced by `v`, all other rows are unchanged. -/
def upd (f : Nat → List Bool) (i : Nat) (v : List Bool) : Nat → List Bool :=
  fun j => if j = i then v else f j

/-- All-zero rows: the initial (zero-initialized) state of the C global
`static _Bool bitarray[255][5]`. -/
def zeroRows : Nat → List Bool :=
  fun _ => [false, false, false, false, false]

/-- A bitarray state whose rows are all ones, used to observe overwrites. -/
def onesRows : Nat → List Bool :=
  fun _ => [true, true, true, true, true]

/-- Lines 98-120: `get_num` returns the nibble value of a hex character
(`0`-`9` via subtraction of 0x30, `A`-`F` and `a`-`f` via the switch);
every other character falls through to the default branch and yields 0. -/
def get_num (ch : Nat) : Nat :=
  if 48 ≤ ch ∧ ch ≤ 57 then ch - 48
  else if ch = 65 ∨ ch = 97 then 10
  else if ch = 66 ∨ ch = 98 then 11
  else if ch = 67 ∨ ch = 99 then 12
  else if ch = 68 ∨ ch = 100 then 13
  else if ch = 69 ∨ ch = 101 then 14
  else if ch = 70 ∨ ch = 102 then 15
  else 0

/-- Lines 129-135: the constant table `bits[16][5]`, a clock bit and a 4-bit
code with the bits reversed (bit 1 least significant, bit 4 most). -/
def bitsTable : List (List Bool) :=
  [[false, false, false, false, false], [false, true,  false, false, false],
   [false, false, true,  false, false], [false, true,  true,  false, false],
   [false, false, false, true,  false], [false, true,  false, true,  false],
   [false, false, true,  true,  false], [false, true,  true,  true,  false],
   [false, false, false, false, true ], [false, true,  false, false, true ],
   [false, false, true,  false, true ], [false, true,  true,  false, true ],
   [false, false, false, true,  true ], [false, true,  false, true,  true ],
   [false, false, true,  true,  true ], [false, true,  true,  true,  true ]]

/-- Row `v` of the constant `bits` table (the loop only indexes it with
values of `get_num`, which are below 16). -/
def bits (v : Nat) : List Bool :=
  bitsTable.getD v []

/-- Line 138: the synchronization identifier `pre[] = {'0', 'F', 'F', 'F'}`
as byte values. -/
def pre : List Nat :=
  [48, 70, 70, 70]

/-- Lines 139-142: the malloc-ed buffer `code` of `flicker_data`: the 4-byte
synchronization identifier, the challenge bytes, and the one reserved byte
at the end that the function never writes (modelled as `tbyte`). -/
def flickerCode (challenge : List Nat) (tbyte : Nat) : List Nat :=
  pre ++ challenge ++ [tbyte]

/-- Lines 148-159: one iteration of the pair loop of `flicker_data`: under
the guard `val1 < 0x10 && val2 < 0x10` row `i` receives `bits[val2]` and row
`i+1` receives `bits[val1]`; otherwise the iteration does nothing. -/
def pairWrite (st : Nat → List Bool) (i v1 v2 : Nat) : Nat → List Bool :=
  if v1 < 16 ∧ v2 < 16 then upd (upd st i (bits v2)) (i + 1) (bits v1) else st

/-- Lines 146-160: the loop `for (i = 0; i < len - 1; i += 2)` of
`flicker_data`, reading `code[i]` and `code[i+1]`; it runs while at least
two bytes remain from position `i`, which is exactly the structural
recursion consuming two list elements per step. -/
def flickerLoop (st : Nat → List Bool) (i : Nat) : List Nat → (Nat → List Bool)
  | c1 :: c2 :: rest => flickerLoop (pairWrite st i (get_num c1) (get_num c2)) (i + 2) rest
  | _ => st

/-- The comparison variant of `flickerLoop` with the guard
`val1 < 0x10 && val2 < 0x10` removed, used only to show that the else
branch of the guard is unreachable. -/
def flickerLoopNoGuard (st : Nat → List Bool) (i : Nat) : List Nat → (Nat → List Bool)
  | c1 :: c2 :: rest =>
      flickerLoopNoGuard
        (upd (upd st i (bits (get_num c2))) (i + 1) (bits (get_num c1)))
        (i + 2) rest
  | _ => st

/-- Lines 123-163: the effect of `flicker_data` on the global `bitarray`,
starting from state `st`, for the given challenge bytes and uninitialized
terminator byte `tbyte` of the buffer. -/
def flicker_data (st : Nat → List Bool) (challenge : List Nat) (tbyte : Nat) :
    Nat → List Bool :=
  flickerLoop st 0 (flickerCode challenge tbyte)

/-- C `strlen` on a byte buffer: the index of the first zero byte, or `none`
when no zero byte exists inside the modelled allocation (in which case the
real `strlen` reads out of bounds). -/
def cstrlen : List Nat → Option Nat
  | [] => none
  | c :: rest => if c = 0 then some 0 else (cstrlen rest).map (· + 1)

/-- The global state used by the animation callbacks: the fields of
`struct Flickerdraw` that the modelled functions read or write
(`challenge_length`, `halfbyteid`, `clock`, `delay`, `interval`,
`change_interval`), together with the global `bitarray`.  The C field
`interval` stores a GLib source id; it is modelled by the period the
source was registered with. -/
structure GState where
  challenge_length : Nat
  halfbyteid : Nat
  clock : Nat
  delay : Nat
  interval : Nat
  change_interval : Bool
  bitarray : Nat → List Bool

attribute [ext] GState

/-- Lines 234-268: `do_flicker_drawing` writes the current clock into bit 0
of row `halfbyteid`, draws the five bars (bit 0 from `flickerdraw.clock`,
bits 1-4 from the updated row), and then either toggles the clock to 0, or
on a clock-0 frame sets the clock back to 1 and advances `halfbyteid` with
wraparound at `challenge_length`.  Returns the new state and the 5 drawn
bits (the frame). -/
def do_flicker_drawing (s : GState) : GState × List Bool :=
  let row := s.bitarray s.halfbyteid
  let row0 := row.set 0 (s.clock != 0)
  let frame := [s.clock != 0, row0.getD 1 false, row0.getD 2 false,
                row0.getD 3 false, row0.getD 4 false]
  let s1 : GState := { s with bitarray := upd s.bitarray s.halfbyteid row0 }
  if s.clock = 0 then
    ({ s1 with clock := 1,
               halfbyteid :=
                 if s.halfbyteid + 1 ≥ s.challenge_length then 0
                 else s.halfbyteid + 1 }, frame)
  else
    ({ s1 with clock := 0 }, frame)

/-- Lines 167-183: `time_handler`.  When `change_interval` is set it removes
the old timeout source, registers a new one at the current `delay`, clears
the flag and returns FALSE without queueing a redraw.  Otherwise it queues a
redraw (modelled as synchronously producing the frame of
`do_flicker_drawing`) and returns TRUE.  Output: new state, optional frame,
and the returned gboolean. -/
def time_handler (s : GState) : GState × Option (List Bool) × Bool :=
  if s.change_interval then
    ({ s with interval := s.delay, change_interval := false }, none, false)
  else
    let p := do_flicker_drawing s
    (p.1, some p.2, true)

/-- Lines 408-415: `on_spin_delay_value_changed` stores the spin-button
value into `delay`, sets `change_interval`, and then calls `time_handler`
directly. -/
def on_spin_delay_value_changed (d : Nat) (s : GState) : GState :=
  (time_handler { s with delay := d, change_interval := true }).1

/-- One timer tick: the state part of `time_handler`. -/
def tick (s : GState) : GState :=
  (time_handler s).1

/-- The state after `n` timer ticks. -/
def ticks : Nat → GState → GState
  | 0, s => s
  | n + 1, s => tick (ticks n s)

/-- The frame produced by tick number `n` (0-indexed), if any. -/
def frameAt (n : Nat) (s : GState) : Option (List Bool) :=
  (time_handler (ticks n s)).2.1

/-- The animator state at session start: lines 454-455 of `ini_flicker_gui`
set `halfbyteid = 0` and `clock = 1`; `challenge_length` has been set by
`on_flicker_challenge_map` and the timeout source registered at period
`D = flickerdraw.delay`. -/
def initState (L D : Nat) (tb : Nat → List Bool) : GState :=
  ⟨L, 0, 1, D, D, false, tb⟩

/-- The four data slots (bits 1-4) of the permuted representation of nibble
`v`, in the order they are drawn. -/
def dataBits (v : Nat) : List Bool :=
  [(bits v).getD 1 false, (bits v).getD 2 false,
   (bits v).getD 3 false, (bits v).getD 4 false]

/-- Whether a byte is an ASCII hex digit (`0-9`, `A-F`, `a-f`). -/
def isHexChar (c : Nat) : Bool :=
  (48 ≤ c && c ≤ 57) || (65 ≤ c && c ≤ 70) || (97 ≤ c && c ≤ 102)

/-- Concrete animator state used to instantiate theorems: mid-animation,
with an interval change pending. -/
def s6 : GState :=
  ⟨6, 2, 1, 100, 50, true, zeroRows⟩

/-- Concrete animator state used to instantiate theorems: mid-animation,
no interval change pending, timer registered at period 50. -/
def s5 : GState :=
  ⟨6, 0, 1, 50, 50, false, zeroRows⟩

/-- Concrete two-row symbol table used to instantiate the cadence theorem. -/
def tbW : Nat → List Bool :=
  fun i => if i = 0 then [false, true, false, false, true]
           else [false, false, true, true, false]

theorem upd_same (f : Nat → List Bool) (i : Nat) (v : List Bool) : upd f i v i = v := by
  simp [upd]

theorem upd_other (f : Nat → List Bool) (i j : Nat) (v : List Bool) (h : j ≠ i) :
    upd f i v j = f j := by
  simp [upd, h]

theorem get_num_lt (c : Nat) : get_num c < 16 := by
  unfold get_num
  split_ifs <;> omega

theorem getD_set_zero : ∀ (l : List Bool) (b d : Bool) (j : Nat), j ≠ 0 →
    (l.set 0 b).getD j d = l.getD j d
  | [], _, _, _, _ => rfl
  | _ :: _, _, _, 0, h => absurd rfl h
  | _ :: _, _, _, _ + 1, _ => rfl

theorem getD_append_left : ∀ (l m : List Nat) (j : Nat), j < l.length →
    (l ++ m).getD j 0 = l.getD j 0
  | [], _, j, h => absurd h (by simp)
  | _ :: _, _, 0, _ => rfl
  | _ :: l, m, j + 1, h => getD_append_left l m j (by simpa using h)

theorem getD_concat_last : ∀ (l : List Nat) (t : Nat),
    (l ++ [t]).getD l.length 0 = t
  | [], _ => rfl
  | _ :: l, t => getD_concat_last l t

theorem flickerCode_length (challenge : List Nat) (tbyte : Nat) :
    (flickerCode challenge tbyte).length = challenge.length + 5 := by
  simp [flickerCode, pre]

theorem flickerCode_assoc (challenge : List Nat) (tbyte : Nat) :
    flickerCode challenge tbyte = (pre ++ challenge) ++ [tbyte] := by
  simp [flickerCode, List.append_assoc]

theorem flickerLoop_lt : ∀ (l : List Nat) (st : Nat → List Bool) (i j : Nat),
    j < i → flickerLoop st i l j = st j
  | [], _, _, _, _ => rfl
  | [_], _, _, _, _ => rfl
  | c1 :: c2 :: rest, st, i, j, h => by
      have h1 : j ≠ i + 1 := by omega
      have h2 : j ≠ i := by omega
      show flickerLoop (pairWrite st i (get_num c1) (get_num c2)) (i + 2) rest j = st j
      rw [flickerLoop_lt rest _ (i + 2) j (by omega)]
      simp only [pairWrite]
      split
      · simp [upd, h1, h2]
      · rfl

theorem flickerLoop_pair : ∀ (l : List Nat) (st : Nat → List Bool) (i k : Nat),
    2 * k + 1 < l.length →
    flickerLoop st i l (i + 2 * k) = bits (get_num (l.getD (2 * k + 1) 0)) ∧
    flickerLoop st i l (i + 2 * k + 1) = bits (get_num (l.getD (2 * k) 0))
  | [], _, _, _, h => absurd h (by simp)
  | [_], _, _, _, h => absurd h (by simp)
  | c1 :: c2 :: rest, st, i, 0, _ => by
      have hlt : i < i + 2 := by omega
      have hlt1 : i + 1 < i + 2 := by omega
      have hg : get_num c1 < 16 ∧ get_num c2 < 16 := ⟨get_num_lt c1, get_num_lt c2⟩
      constructor
      · show flickerLoop st i (c1 :: c2 :: rest) (i + 2 * 0) = _
        have e : i + 2 * 0 = i := by omega
        rw [e]
        show flickerLoop (pairWrite st i (get_num c1) (get_num c2)) (i + 2) rest i = _
        rw [flickerLoop_lt rest _ (i + 2) i hlt]
        simp [pairWrite, if_pos hg, upd, List.getD]
      · show flickerLoop st i (c1 :: c2 :: rest) (i + 2 * 0 + 1) = _
        have e : i + 2 * 0 + 1 = i + 1 := by omega
        rw [e]
        show flickerLoop (pairWrite st i (get_num c1) (get_num c2)) (i + 2) rest (i + 1) = _
        rw [flickerLoop_lt rest _ (i + 2) (i + 1) hlt1]
        simp [pairWrite, if_pos hg, upd, List.getD]
  | c1 :: c2 :: rest, st, i, k + 1, h => by
      have hlen : 2 * k + 1 < rest.length := by
        have := h
        simp only [List.length_cons] at this
        omega
      have ih := flickerLoop_pair rest (pairWrite st i (get_num c1) (get_num c2)) (i + 2) k hlen
      constructor
      · have e : i + 2 * (k + 1) = (i + 2) + 2 * k := by omega
        show flickerLoop (pairWrite st i (get_num c1) (get_num c2)) (i + 2) rest (i + 2 * (k + 1)) = _
        rw [e]
        have eg : (c1 :: c2 :: rest).getD (2 * (k + 1) + 1) 0 = rest.getD (2 * k + 1) 0 := by
          have e2 : 2 * (k + 1) + 1 = (2 * k + 1) + 2 := by omega
          rw [e2]
          rfl
        rw [eg]
        exact ih.1
      · have e : i + 2 * (k + 1) + 1 = (i + 2) + 2 * k + 1 := by omega
        show flickerLoop (pairWrite st i (get_num c1) (get_num c2)) (i + 2) rest (i + 2 * (k + 1) + 1) = _
        rw [e]
        have eg : (c1 :: c2 :: rest).getD (2 * (k + 1)) 0 = rest.getD (2 * k) 0 := by
          have e2 : 2 * (k + 1) = 2 * k + 2 := by omega
          rw [e2]
          rfl
        rw [eg]
        exact ih.2

theorem flickerLoop_eq_noGuard : ∀ (l : List Nat) (st : Nat → List Bool) (i : Nat),
    flickerLoop st i l = flickerLoopNoGuard st i l
  | [], _, _ => rfl
  | [_], _, _ => rfl
  | c1 :: c2 :: rest, st, i => by
      show flickerLoop (pairWrite st i (get_num c1) (get_num c2)) (i + 2) rest =
        flickerLoopNoGuard
          (upd (upd st i (bits (get_num c2))) (i + 1) (bits (get_num c1))) (i + 2) rest
      have hg : get_num c1 < 16 ∧ get_num c2 < 16 := ⟨get_num_lt c1, get_num_lt c2⟩
      have hpw : pairWrite st i (get_num c1) (get_num c2) =
          upd (upd st i (bits (get_num c2))) (i + 1) (bits (get_num c1)) := by
        unfold pairWrite
        exact if_pos hg
      rw [hpw]
      exact flickerLoop_eq_noGuard rest _ (i + 2)

theorem tick_explicit (L h c D I : Nat) (tb : Nat → List Bool) :
    tick ⟨L, h, c, D, I, false, tb⟩ =
      if c = 0 then
        ⟨L, (if h + 1 ≥ L then 0 else h + 1), 1, D, I, false,
         upd tb h ((tb h).set 0 (c != 0))⟩
      else
        ⟨L, h, 0, D, I, false, upd tb h ((tb h).set 0 (c != 0))⟩ := by
  by_cases hc : c = 0 <;>
    simp [tick, time_handler, do_flicker_drawing, hc]

theorem ticks_fields (L D : Nat) (tb : Nat → List Bool) (hL : 0 < L) :
    ∀ n : Nat,
    (ticks n (initState L D tb)).challenge_length = L ∧
    (ticks n (initState L D tb)).delay = D ∧
    (ticks n (initState L D tb)).interval = D ∧
    (ticks n (initState L D tb)).change_interval = false ∧
    (ticks n (initState L D tb)).halfbyteid = (n / 2) % L ∧
    (ticks n (initState L D tb)).clock = (if n % 2 = 0 then 1 else 0) ∧
    ∀ i j : Nat, 1 ≤ j →
      ((ticks n (initState L D tb)).bitarray i).getD j false = (tb i).getD j false := by
  intro n
  induction n with
  | zero =>
      refine ⟨rfl, rfl, rfl, rfl, ?_, rfl, fun i j _ => rfl⟩
      simp [ticks, initState]
  | succ n ih =>
      obtain ⟨h1, h2, h3, h4, h5, h6, h7⟩ := ih
      have hstate : ticks n (initState L D tb) =
          ⟨L, (n / 2) % L, (if n % 2 = 0 then 1 else 0), D, D, false,
           (ticks n (initState L D tb)).bitarray⟩ := by
        ext1 <;> simp [h1, h2, h3, h4, h5, h6]
      have hstep : ticks (n + 1) (initState L D tb) = tick (ticks n (initState L D tb)) := rfl
      rw [hstep, hstate, tick_explicit]
      by_cases hpar : n % 2 = 0
      · have hc : ¬ ((if n % 2 = 0 then 1 else 0) = 0) := by simp [hpar]
        rw [if_neg hc]
        have hdiv : (n + 1) / 2 = n / 2 := by omega
        have hmod : ¬ ((n + 1) % 2 = 0) := by omega
        refine ⟨rfl, rfl, rfl, rfl, by simp [hdiv], by simp [hmod], ?_⟩
        intro i j hj
        by_cases hi : i = (n / 2) % L
        · subst hi
          dsimp only
          rw [upd_same, getD_set_zero _ _ _ j (by omega)]
          exact h7 _ j hj
        · dsimp only
          rw [upd_other _ _ _ _ hi]
          exact h7 i j hj
      · have hc : (if n % 2 = 0 then 1 else 0) = 0 := by simp [hpar]
        rw [if_pos hc]
        have hdiv : (n + 1) / 2 = n / 2 + 1 := by omega
        have hmod : (n + 1) % 2 = 0 := by omega
        have hcur : (n / 2) % L < L := Nat.mod_lt _ hL
        have hpush : (n / 2 + 1) % L = ((n / 2) % L + 1) % L :=
          (Nat.mod_add_mod (n / 2) L 1).symm
        have hhb : (if (n / 2) % L + 1 ≥ L then 0 else (n / 2) % L + 1) =
            ((n + 1) / 2) % L := by
          rw [hdiv, hpush]
          by_cases hge : (n / 2) % L + 1 ≥ L
          · have heq : (n / 2) % L + 1 = L := by omega
            rw [if_pos hge, heq, Nat.mod_self]
          · rw [if_neg hge,
              Nat.mod_eq_of_lt (show (n / 2) % L + 1 < L by omega)]
        refine ⟨rfl, rfl, rfl, rfl, by simp [hhb], by simp [hmod], ?_⟩
        intro i j hj
        by_cases hi : i = (n / 2) % L
        · subst hi
          dsimp only
          rw [upd_same, getD_set_zero _ _ _ j (by omega)]
          exact h7 _ j hj
        · dsimp only
          rw [upd_other _ _ _ _ hi]
          exact h7 i j hj

set_option maxRecDepth 4000

theorem bits_getD_zero : ∀ v : Nat, v < 16 → (bits v).getD 0 true = false := by
  decide

/-- Claim C1: after prepending the prefix bytes `0FFF`, the pair loop is
cross-assigning: for every even position `i` of the prefixed sequence with
`i + 1` still inside it, symbol-table entry `i` receives the permuted bits
of the nibble of character `i + 1` and entry `i + 1` those of character `i`;
in particular for challenge `1A` (bytes 49, 65) the table rows 0..5 are the
permuted forms of F, 0, F, F, A, 1. -/
theorem flicker_data_cross_assign :
    (∀ (st : Nat → List Bool) (ch : List Nat) (tbyte i : Nat),
        i % 2 = 0 → i + 1 < ch.length + 4 →
        flicker_data st ch tbyte i = bits (get_num ((pre ++ ch).getD (i + 1) 0)) ∧
        flicker_data st ch tbyte (i + 1) = bits (get_num ((pre ++ ch).getD i 0))) ∧
    (flicker_data zeroRows [49, 65] 0 0 = bits 15 ∧
     flicker_data zeroRows [49, 65] 0 1 = bits 0 ∧
     flicker_data zeroRows [49, 65] 0 2 = bits 15 ∧
     flicker_data zeroRows [49, 65] 0 3 = bits 15 ∧
     flicker_data zeroRows [49, 65] 0 4 = bits 10 ∧
     flicker_data zeroRows [49, 65] 0 5 = bits 1) := by
  constructor
  · intro st ch tbyte i hpar hlt
    have hkey := flickerLoop_pair (flickerCode ch tbyte) st 0 (i / 2)
      (by rw [flickerCode_length]; omega)
    have he2 : 2 * (i / 2) = i := by omega
    rw [he2, Nat.zero_add] at hkey
    have hup : (flickerCode ch tbyte).getD (i + 1) 0 = (pre ++ ch).getD (i + 1) 0 := by
      rw [flickerCode_assoc]
      exact getD_append_left (pre ++ ch) [tbyte] (i + 1) (by simp [pre]; omega)
    have hdown : (flickerCode ch tbyte).getD i 0 = (pre ++ ch).getD i 0 := by
      rw [flickerCode_assoc]
      exact getD_append_left (pre ++ ch) [tbyte] i (by simp [pre]; omega)
    constructor
    · show flickerLoop st 0 (flickerCode ch tbyte) i = _
      rw [hkey.1, hup]
    · show flickerLoop st 0 (flickerCode ch tbyte) (i + 1) = _
      rw [hkey.2, hdown]
  · decide

theorem flicker_data_cross_assign_applied :
    (4 % 2 = 0 ∧ 4 + 1 < ([49, 65] : List Nat).length + 4) ∧
    (flicker_data zeroRows [49, 65] 7 4 = bits (get_num ((pre ++ [49, 65]).getD 5 0)) ∧
     flicker_data zeroRows [49, 65] 7 5 = bits (get_num ((pre ++ [49, 65]).getD 4 0))) :=
  ⟨⟨by decide, by decide⟩,
   flicker_data_cross_assign.1 zeroRows [49, 65] 7 4 (by decide) (by decide)⟩

/-- Claim C3 (code bug): `flicker_data` reserves one byte for a NUL
terminator (`len = sizeof(pre) + strlen(challenge) + 1`) but never writes
it, and `on_flicker_challenge_map` then takes `challenge_length =
strlen(code)`.  For challenge `1A` the table length is 6 = N + 4 only when
the uninitialized terminator byte happens to be 0; when it is nonzero (here
0x41) no NUL exists in the allocation and `strlen` reads out of bounds.
The first four table rows do come from the fixed `0FFF` identifier alone. -/
theorem challenge_length_missing_nul :
    cstrlen (flickerCode [49, 65] 65) = none ∧
    cstrlen (flickerCode [49, 65] 0) = some 6 ∧
    flicker_data zeroRows [49, 65] 65 0 = bits 15 ∧
    flicker_data zeroRows [49, 65] 65 1 = bits 0 ∧
    flicker_data zeroRows [49, 65] 65 2 = bits 15 ∧
    flicker_data zeroRows [49, 65] 65 3 = bits 15 := by
  decide

/-- Claim C4: every nibble value `v` in 0..15 is mapped to a 5-bit row
whose data slot `j` (for `j` = 1..4) is bit `j - 1` of `v`, i.e. the
nibble is bit-reversed into the 4 data slots; in particular the data bits
of 0, 1, 8, 15 are 0000, 1000, 0001, 1111. -/
theorem bits_bit_reversed :
    (∀ v : Nat, v < 16 → (bits v).length = 5 ∧
      ∀ j : Nat, j < 5 → 1 ≤ j → (bits v).getD j false = v.testBit (j - 1)) ∧
    dataBits 0 = [false, false, false, false] ∧
    dataBits 1 = [true, false, false, false] ∧
    dataBits 8 = [false, false, false, true] ∧
    dataBits 15 = [true, true, true, true] := by
  decide

theorem bits_bit_reversed_applied :
    10 < 16 ∧ ((bits 10).length = 5 ∧
      ∀ j : Nat, j < 5 → 1 ≤ j → (bits 10).getD j false = (10 : Nat).testBit (j - 1)) :=
  ⟨by decide, bits_bit_reversed.1 10 (by decide)⟩

/-- Claim C7 counterexample: for the odd-length challenge `1` (byte 49) the
trailing character is NOT left unprocessed: with uninitialized terminator
byte 0x41 the loop overwrites table slot 4 (the slot of the trailing
character) with `bits[get_num 0x41]` = `bits[10]`, so the slot does not
retain its default state, and the trailing nibble is written to slot 5. -/
theorem odd_length_trailing_processed_cex :
    flicker_data zeroRows [49] 65 4 ≠ zeroRows 4 ∧
    flicker_data zeroRows [49] 65 4 = bits 10 ∧
    flicker_data zeroRows [49] 65 5 = bits 1 := by
  decide

/-- Claim C7 amended: for every challenge of odd length N the pair loop
processes the final character of the prefixed string together with the
uninitialized terminator byte of the allocation: slot N + 3 receives the
permuted nibble of that terminator byte, and slot N + 4 (one past the
nominal table) receives the permuted nibble of the final character; no
error is raised in either case. -/
theorem odd_length_pairs_terminator :
    ∀ (st : Nat → List Bool) (ch : List Nat) (tbyte : Nat),
      ch.length % 2 = 1 →
      flicker_data st ch tbyte (ch.length + 3) = bits (get_num tbyte) ∧
      flicker_data st ch tbyte (ch.length + 4) =
        bits (get_num ((pre ++ ch).getD (ch.length + 3) 0)) := by
  intro st ch tbyte hodd
  have hkey := flickerLoop_pair (flickerCode ch tbyte) st 0 ((ch.length + 3) / 2)
    (by rw [flickerCode_length]; omega)
  have he2 : 2 * ((ch.length + 3) / 2) = ch.length + 3 := by omega
  rw [he2, Nat.zero_add] at hkey
  have hterm : (flickerCode ch tbyte).getD (ch.length + 3 + 1) 0 = tbyte := by
    rw [flickerCode_assoc]
    have hidx : ch.length + 3 + 1 = (pre ++ ch).length := by simp [pre]
    rw [hidx]
    exact getD_concat_last (pre ++ ch) tbyte
  have hlast : (flickerCode ch tbyte).getD (ch.length + 3) 0 =
      (pre ++ ch).getD (ch.length + 3) 0 := by
    rw [flickerCode_assoc]
    exact getD_append_left (pre ++ ch) [tbyte] (ch.length + 3) (by simp [pre])
  constructor
  · show flickerLoop st 0 (flickerCode ch tbyte) (ch.length + 3) = _
    rw [hkey.1, hterm]
  · show flickerLoop st 0 (flickerCode ch tbyte) (ch.length + 3 + 1) = _
    rw [hkey.2, hlast]

theorem odd_length_pairs_terminator_applied :
    ([49] : List Nat).length % 2 = 1 ∧
    (flicker_data zeroRows [49] 7 4 = bits (get_num 7) ∧
     flicker_data zeroRows [49] 7 5 = bits (get_num ((pre ++ [49]).getD 4 0))) :=
  ⟨by decide, odd_length_pairs_terminator zeroRows [49] 7 (by decide)⟩

/-- Claim C8: every byte outside `0-9`, `A-F`, `a-f` is converted to nibble
value 0 (the default branch of the switch; no error path exists), and the
hex letters are accepted case-insensitively. -/
theorem get_num_silent_fallback :
    (∀ c : Nat, c < 256 → isHexChar c = false → get_num c = 0) ∧
    (∀ c : Nat, c < 71 → 65 ≤ c → get_num (c + 32) = get_num c) := by
  constructor <;> decide

theorem get_num_silent_fallback_applied :
    (71 < 256 ∧ isHexChar 71 = false ∧ get_num 71 = 0) ∧
    (70 < 71 ∧ 65 ≤ 70 ∧ get_num 102 = get_num 70) :=
  ⟨⟨by decide, by decide, get_num_silent_fallback.1 71 (by decide) (by decide)⟩,
   ⟨by decide, by decide, get_num_silent_fallback.2 70 (by decide) (by decide)⟩⟩

/-- Claim C10: `get_num` always returns a value below 16, so the guard
`val1 < 0x10 && val2 < 0x10` in the pair loop always holds and the else
branch (the `continue`) is unreachable: the loop equals its guard-free
variant on all inputs. -/
theorem get_num_bound_guard_unreachable :
    (∀ c : Nat, get_num c < 16) ∧
    (∀ (l : List Nat) (st : Nat → List Bool) (i : Nat),
        flickerLoop st i l = flickerLoopNoGuard st i l) :=
  ⟨get_num_lt, fun l st i => flickerLoop_eq_noGuard l st i⟩

theorem time_handler_frame (L h c D I : Nat) (tb : Nat → List Bool) :
    (time_handler ⟨L, h, c, D, I, false, tb⟩).2.1 =
      some [c != 0, (tb h).getD 1 false, (tb h).getD 2 false,
            (tb h).getD 3 false, (tb h).getD 4 false] := by
  by_cases hc : c = 0 <;>
    simp [time_handler, do_flicker_drawing, hc, getD_set_zero]

/-- Claim C2: starting from the state set by `ini_flicker_gui`
(`halfbyteid = 0`, `clock = 1`) with a table of length `L > 0` and no
pending interval change, tick number `n` (0-indexed) draws the table row
`(n / 2) % L` with its bit 0 replaced by the current clock, the clock is 1
on even ticks and 0 on odd ticks, and `halfbyteid` advances by one (with
wraparound at `L`) exactly when a clock-0 tick returns the clock to 1 — so
ticks 0 and 1 reference row 0, ticks 2 and 3 reference row 1, and so on. -/
theorem animator_cadence :
    ∀ (L D : Nat) (tb : Nat → List Bool) (n : Nat), 0 < L →
      (ticks n (initState L D tb)).halfbyteid = (n / 2) % L ∧
      (ticks n (initState L D tb)).clock = (if n % 2 = 0 then 1 else 0) ∧
      frameAt n (initState L D tb) =
        some [(if n % 2 = 0 then true else false),
              (tb ((n / 2) % L)).getD 1 false, (tb ((n / 2) % L)).getD 2 false,
              (tb ((n / 2) % L)).getD 3 false, (tb ((n / 2) % L)).getD 4 false] := by
  intro L D tb n hL
  obtain ⟨h1, h2, h3, h4, h5, h6, h7⟩ := ticks_fields L D tb hL n
  refine ⟨h5, h6, ?_⟩
  unfold frameAt
  have hstate : ticks n (initState L D tb) =
      ⟨L, (n / 2) % L, (if n % 2 = 0 then 1 else 0), D, D, false,
       (ticks n (initState L D tb)).bitarray⟩ := by
    ext1 <;> simp [h1, h2, h3, h4, h5, h6]
  rw [hstate, time_handler_frame,
    h7 _ 1 (by omega), h7 _ 2 (by omega), h7 _ 3 (by omega), h7 _ 4 (by omega)]
  by_cases hpar : n % 2 = 0 <;> simp [hpar]

theorem animator_cadence_applied :
    0 < 2 ∧
    ((ticks 3 (initState 2 50 tbW)).halfbyteid = (3 / 2) % 2 ∧
     (ticks 3 (initState 2 50 tbW)).clock = (if 3 % 2 = 0 then 1 else 0) ∧
     frameAt 3 (initState 2 50 tbW) =
       some [(if 3 % 2 = 0 then true else false),
             (tbW ((3 / 2) % 2)).getD 1 false, (tbW ((3 / 2) % 2)).getD 2 false,
             (tbW ((3 / 2) % 2)).getD 3 false, (tbW ((3 / 2) % 2)).getD 4 false]) :=
  ⟨by decide, animator_cadence 2 50 tbW 3 (by decide)⟩

/-- Claim C5 counterexample: `on_spin_delay_value_changed` does NOT merely
store the new interval and set the flag.  From a state with a timer at
period 50 and no pending change, setting the delay to 100 leaves
`change_interval = false` (the flag has already been consumed) and the
registered timer at period 100 (the handler was invoked directly and
rescheduled synchronously), not at the old period 50. -/
theorem on_spin_delay_reschedules_now :
    (on_spin_delay_value_changed 100 s5).change_interval = false ∧
    (on_spin_delay_value_changed 100 s5).interval = 100 ∧
    ¬ ((on_spin_delay_value_changed 100 s5).change_interval = true ∧
       (on_spin_delay_value_changed 100 s5).interval = s5.interval) := by
  refine ⟨rfl, rfl, ?_⟩
  rintro ⟨h1, h2⟩
  exact absurd h2 (by decide)

/-- Claim C5 amended: `on_spin_delay_value_changed` stores the new value
into `delay`, sets `change_interval`, and then calls `time_handler`
directly; the handler sees the flag, removes the old-interval timer,
registers a new timer at the new delay and clears the flag — so the
rescheduling happens synchronously inside the call and no extra tick at
the old cadence occurs. -/
theorem on_spin_delay_value_changed_spec :
    ∀ (d : Nat) (s : GState),
      on_spin_delay_value_changed d s =
        { s with delay := d, interval := d, change_interval := false } := by
  intro d s
  rfl

/-- Claim C6: when `time_handler` runs with `change_interval` set it
produces no frame, returns FALSE, replaces the timer by one at the current
`delay`, clears the flag, and leaves `halfbyteid`, `clock` and the bitarray
untouched; the subsequent tick then draws normally from that unchanged
animator state, emitting exactly the frame `do_flicker_drawing` would have
produced before the interval change. -/
theorem time_handler_interval_change :
    ∀ s : GState, s.change_interval = true →
      (time_handler s).2.1 = none ∧
      (time_handler s).2.2 = false ∧
      (time_handler s).1.interval = s.delay ∧
      (time_handler s).1.change_interval = false ∧
      (time_handler s).1.halfbyteid = s.halfbyteid ∧
      (time_handler s).1.clock = s.clock ∧
      (time_handler s).1.bitarray = s.bitarray ∧
      (time_handler (time_handler s).1).2.1 = some (do_flicker_drawing s).2 ∧
      (time_handler (time_handler s).1).1.halfbyteid = (do_flicker_drawing s).1.halfbyteid ∧
      (time_handler (time_handler s).1).1.clock = (do_flicker_drawing s).1.clock := by
  intro s h
  have h1 : time_handler s =
      ({ s with interval := s.delay, change_interval := false }, none, false) := by
    unfold time_handler
    rw [if_pos h]
  rw [h1]
  refine ⟨rfl, rfl, rfl, rfl, rfl, rfl, rfl, ?_, ?_, ?_⟩ <;>
    by_cases hc : s.clock = 0 <;>
    simp [time_handler, do_flicker_drawing, hc]

theorem time_handler_interval_change_applied :
    (time_handler s6).2.1 = none ∧ (time_handler s6).1.interval = s6.delay :=
  ⟨(time_handler_interval_change s6 rfl).1,
   (time_handler_interval_change s6 rfl).2.2.1⟩

/-- Claim C9 counterexample: the encoder DOES write the clock-bit slot.
Starting from a bitarray whose row 0 has bit 0 set, encoding the empty
challenge overwrites row 0 with `bits[15]`, whose bit 0 is 0 — so bit 0 of
the entry is not left untouched by `flicker_data`. -/
theorem flicker_data_writes_clock_bit :
    (flicker_data onesRows [] 0 0).getD 0 true = false ∧
    (onesRows 0).getD 0 true = true ∧
    flicker_data onesRows [] 0 0 ≠ onesRows 0 := by
  decide

/-- Claim C9 amended: the encoder copies whole 5-bit rows, so it writes bit
0 of every entry it fills — always with 0, since column 0 of the constant
`bits` table is all zeros; at render time the animator overwrites bit 0 of
the current entry with the clock value, and bits 1..4 of a filled entry
come from the encoder alone. -/
theorem clock_bit_discipline :
    (∀ v : Nat, v < 16 → (bits v).getD 0 true = false) ∧
    (∀ (st : Nat → List Bool) (ch : List Nat) (tbyte i : Nat),
        i % 2 = 0 → i + 1 < (flickerCode ch tbyte).length →
        (flicker_data st ch tbyte i).getD 0 true = false ∧
        (flicker_data st ch tbyte (i + 1)).getD 0 true = false) ∧
    (∀ s : GState,
        (do_flicker_drawing s).1.bitarray s.halfbyteid =
          (s.bitarray s.halfbyteid).set 0 (s.clock != 0)) := by
  refine ⟨bits_getD_zero, ?_, ?_⟩
  · intro st ch tbyte i hpar hlt
    have hkey := flickerLoop_pair (flickerCode ch tbyte) st 0 (i / 2) (by omega)
    have he2 : 2 * (i / 2) = i := by omega
    rw [he2, Nat.zero_add] at hkey
    constructor
    · show (flickerLoop st 0 (flickerCode ch tbyte) i).getD 0 true = false
      rw [hkey.1]
      exact bits_getD_zero _ (get_num_lt _)
    · show (flickerLoop st 0 (flickerCode ch tbyte) (i + 1)).getD 0 true = false
      rw [hkey.2]
      exact bits_getD_zero _ (get_num_lt _)
  · intro s
    by_cases hc : s.clock = 0 <;>
      simp [do_flicker_drawing, hc, upd_same]

theorem clock_bit_discipline_applied :
    ((flicker_data zeroRows [49, 65] 7 2).getD 0 true = false ∧
     (flicker_data zeroRows [49, 65] 7 3).getD 0 true = false) ∧
    (bits 3).getD 0 true = false :=
  ⟨clock_bit_discipline.2.1 zeroRows [49, 65] 7 2 (by decide) (by decide),
   clock_bit_discipline.1 3 (by decide)⟩
